import Mathlib

/-!
Verification development for the klyp scope/assembly core (klyp.py).

The definitions below are a shallow embedding of the Python source:
pure fragments become Lean functions, the JSON config document becomes a
structured `Config` value, and the filesystem observed during assembly
becomes an explicit `FS` record of query functions.  Machine-level details
that the claims do not depend on (clipboard, CLI parsing, networking) are
out of scope, exactly as in the specification.
-/

/-! ### Python string primitives

Python `str.strip()` / `str.isspace()` / `str.lower()` and friends, modelled
over `List Char` so that everything reduces in the kernel.  The whitespace
set is the ASCII subset Python uses; the texts handled by klyp are ordinary
UTF-8 text so this is faithful for every input the claims touch.
-/

def isPySpace (c : Char) : Bool :=
  c = ' ' || c = '\t' || c = '\n' || c = '\r' || c = '\x0b' || c = '\x0c'

/-- Python `s.strip()`: drop whitespace from both ends. -/
def pyStrip (s : String) : String :=
  String.mk (((s.toList.dropWhile isPySpace).reverse.dropWhile isPySpace).reverse)

/-- Python `s.isspace()`: nonempty and all characters whitespace. -/
def pyIsSpaceStr (s : String) : Bool :=
  !s.toList.isEmpty && s.toList.all isPySpace

/-- Python `s.lower()` (ASCII case folding suffices for the reserved-name sets). -/
def pyLower (s : String) : String :=
  String.mk (s.toList.map Char.toLower)

/-- Python `s.startswith(p)`. -/
def strStartsWith (s p : String) : Bool :=
  p.toList.isPrefixOf s.toList

/-- Python `s.endswith(p)`. -/
def strEndsWith (s p : String) : Bool :=
  p.toList.isSuffixOf s.toList

/-! ### Path model (`get_display_path`, klyp.py lines 155-165)

Stored file identities are POSIX absolute path strings (the tool stores
`str(Path(...).resolve())`).  `os.path.relpath` is modelled on path
components; `Path(...).as_posix()` is the identity on its output.
-/

def splitComps : List Char → List Char → List (List Char)
  | [], cur => [cur.reverse]
  | c :: rest, cur => if c = '/' then cur.reverse :: splitComps rest [] else splitComps rest (c :: cur)

/-- Components of a POSIX path string, empty segments dropped. -/
def pathComponents (s : String) : List String :=
  ((splitComps s.toList []).map String.mk).filter (fun c => c ≠ "")

def isAbsolutePath (s : String) : Bool :=
  s.toList.head? = some '/'

def commonPrefixLen : List String → List String → Nat
  | a :: as, b :: bs => if a = b then commonPrefixLen as bs + 1 else 0
  | _, _ => 0

def joinSlash : List String → String
  | [] => ""
  | [x] => x
  | x :: xs => x ++ "/" ++ joinSlash xs

/-- Python `os.path.relpath(path, base)` for absolute POSIX inputs. -/
def relpath (path base : String) : String :=
  let p := pathComponents path
  let b := pathComponents base
  let i := commonPrefixLen p b
  let rel := List.replicate (b.length - i) ".." ++ p.drop i
  if rel.isEmpty then "." else joinSlash rel

/-- Normalization of `.` and `..` components used to model `Path.resolve()`
for the (unused in practice) branch of `get_display_path` that receives a
relative path.  Symlink resolution is outside the model. -/
def normalizeComps : List String → List String → List String
  | [], acc => acc.reverse
  | c :: rest, acc =>
    if c = "." then normalizeComps rest acc
    else if c = ".." then normalizeComps rest acc.tail
    else normalizeComps rest (c :: acc)

def resolveUnder (base rel : String) : String :=
  "/" ++ joinSlash (normalizeComps (pathComponents base ++ pathComponents rel) [])

/-- Embedding of `get_display_path(absolute_path, base_dir)`.  The Windows
`ValueError` branch of `os.path.relpath` cannot fire on POSIX and is not
modelled. -/
def get_display_path (absPath base : String) : String :=
  let ap := if isAbsolutePath absPath then absPath else resolveUnder base absPath
  let dp := relpath ap base
  if !(strStartsWith dp "../" || strStartsWith dp "./" || dp = "." || isAbsolutePath dp) then
    "./" ++ dp
  else if dp = "." then "./"
  else dp

/-! ### Config store model (klyp.py lines 31-180)

A post-`load_config` document: the two metadata keys plus the scope map.
`load_config` normalizes every scope object to carry all three fields, so a
scope entry is always a full `ScopeData`.
-/

structure ScopeData where
  files : List String
  context_file : Option String
  prompt_file : Option String
deriving Repr, DecidableEq

structure Config where
  current_scope : Option String
  version : Option String
  scopes : List (String × ScopeData)
deriving Repr, DecidableEq

def SCOPE_ACTION_COMMAND_NAMES : List String :=
  ["add", "a", "new", "mk", "set", "s", "delete", "del", "rm",
   "rename", "ren", "mv", "list", "ls"]

def RESERVED_KLYP_KEYS : List String :=
  ["_klyp_current_scope", "_klyp_version"]

/-- The `RESERVED_COMMAND_NAMES` set as populated by `main_cli` before any
command handler runs (command names, their aliases, and the lowercased
reserved keys). -/
def RESERVED_COMMAND_NAMES : List String :=
  ["init", "scope", "use", "u", "add", "remove", "rmv", "copy", "cp",
   "run", "status", "st", "update", "help", "h",
   "_klyp_current_scope", "_klyp_version"]

/-- Embedding of `is_valid_scope_name` (the boolean component). -/
def is_valid_scope_name (name : String) : Bool :=
  if name = "" then false
  else if name ∈ RESERVED_KLYP_KEYS then false
  else if pyLower name ∈ RESERVED_COMMAND_NAMES then false
  else if pyLower name ∈ SCOPE_ACTION_COMMAND_NAMES then false
  else true

/-- Embedding of `get_current_scope_name`: the raw stored pointer, with no
validation against the scope map. -/
def get_current_scope_name (config : Config) : Option String :=
  config.current_scope

def lookupScope (config : Config) (name : String) : Option ScopeData :=
  (config.scopes.find? (fun p => p.1 = name)).map Prod.snd

/-- Embedding of `get_scope_data`: name validation plus map lookup.  In the
model every stored scope object already has all three keys, so the
in-place key repair of the Python version is a no-op. -/
def get_scope_data (config : Config) (name : String) : Option ScopeData :=
  if name = "" then none
  else if !is_valid_scope_name name then none
  else lookupScope config name

/-! ### Persisting (`save_config`, klyp.py lines 126-137) -/

/-- Python `sorted(list(set(l)))` on a list of strings. -/
def pySortedDedup (l : List String) : List String :=
  List.insertionSort (· ≤ ·) l.dedup

/-- The per-scope normalization `save_config` applies before writing. -/
def normalizeScope (sd : ScopeData) : ScopeData :=
  { sd with files := pySortedDedup sd.files }

/-- What `save_config` does to one stored entry: the source guards the
normalization with `if not key.startswith("_klyp_")` (klyp.py line 129), so
an entry whose key carries the metadata prefix is written back untouched. -/
def saveScopeEntry (p : String × ScopeData) : String × ScopeData :=
  if strStartsWith p.1 "_klyp_" then p else (p.1, normalizeScope p.2)

/-- Embedding of `save_config`: before writing, the file list of every
scope whose key does not start with `_klyp_` is deduplicated and sorted.
Serialization itself (indent, key order) carries no information and is not
modelled. -/
def save_config (cfg : Config) : Config :=
  { cfg with scopes := cfg.scopes.map saveScopeEntry }

/-- The code-file branch of `handle_add_cmd` (klyp.py lines 332-349) for a
single already-resolved absolute path: skip if not a regular file, append
only if not already tracked. -/
def addFileToScope (isFile : String → Bool) (sd : ScopeData) (absPath : String) : ScopeData :=
  if isFile absPath then
    if absPath ∈ sd.files then sd
    else { sd with files := sd.files ++ [absPath] }
  else sd

/-! ### Scope rename (`handle_scope_rename_cmd`, klyp.py lines 276-291) -/

inductive RenameOutcome
  | renamed (cfg : Config)
  | sameName
  | errOldNotFound
  | errInvalidNew
  | errNewExists
deriving Repr, DecidableEq

/-- Embedding of `handle_scope_rename_cmd` on a loaded config.  The error
outcomes carry no config: the handler exits before any mutation, so the
persisted store is unchanged there.  On success the handler runs
`config[new] = config.pop(old)`, retargets the active pointer when it named
the source, and persists through `save_config`. -/
def handle_scope_rename_cmd (cfg : Config) (oldName newName : String) : RenameOutcome :=
  match get_scope_data cfg oldName with
  | none => .errOldNotFound
  | some sd =>
    if !is_valid_scope_name newName then .errInvalidNew
    else if (get_scope_data cfg newName).isSome then .errNewExists
    else if oldName = newName then .sameName
    else
      let scopes1 := (cfg.scopes.filter fun p => p.1 ≠ oldName) ++ [(newName, sd)]
      let cur1 := if cfg.current_scope = some oldName then some newName else cfg.current_scope
      .renamed (save_config { cfg with scopes := scopes1, current_scope := cur1 })

/-! ### Content assembly (`_get_formatted_scope_content`, klyp.py lines 398-495)

The filesystem at assembly time is a record of two query functions:
`isFile` answers `Path.is_file()`, and `readFile` answers `read_text()`,
where `none` models an `IOError` raised by a path that passed the
`is_file` check.  Warnings printed by the Python function are collected in
emission order; `sys.exit(1)` paths become `Except.error`.
-/

structure FS where
  isFile : String → Bool
  readFile : String → Option String

inductive Warning
  | contextReadError (displayPath : String)
  | contextMissing (displayPath : String)
  | fileReadError (displayPath : String)
  | noFilesRead
  | promptReadError (displayPath : String)
  | promptMissing (displayPath : String)
deriving Repr, DecidableEq

inductive AssembleError
  | noActiveScope
  | scopeNotFound (name : String)
  | missingTrackedFiles (scope : String) (missing : List String)
deriving Repr, DecidableEq

/-- The tuple returned by `_get_formatted_scope_content`, plus the warnings
it printed and a `noop` flag marking the two distinguished
"nothing to assemble" early returns. -/
structure AssembleOk where
  text : String
  filesRead : Nat
  chars : Nat
  scopeName : String
  noop : Bool
  warnings : List Warning
deriving Repr, DecidableEq

structure SectionOut where
  parts : List String
  content : String
  warns : List Warning
deriving Repr, DecidableEq

/-- Step 1 of the assembler: the context file.  `content` is the Python
variable `context_content_str` (empty when unset, unreadable or missing). -/
def contextStep (fs : FS) (base : String) (cf : Option String) : SectionOut :=
  match cf with
  | none => ⟨[], "", []⟩
  | some cp =>
    if cp = "" then ⟨[], "", []⟩
    else if fs.isFile cp then
      match fs.readFile cp with
      | some raw =>
        let c := pyStrip raw
        ⟨if c ≠ "" then [c] else [], c, []⟩
      | none => ⟨[], "", [.contextReadError (get_display_path cp base)]⟩
    else ⟨[], "", [.contextMissing (get_display_path cp base)]⟩

/-- The comparison Python `list.sort(key=lambda item: item[0])` uses on the
`(display_path, abs_path)` tuples. -/
def pairLe (a b : String × String) : Prop := a.1 ≤ b.1

instance : DecidableRel pairLe := fun a b => inferInstanceAs (Decidable (a.1 ≤ b.1))

instance : IsTotal (String × String) pairLe := ⟨fun a b => le_total a.1 b.1⟩

instance : IsTrans (String × String) pairLe := ⟨fun _ _ _ => le_trans⟩

/-- The tracked files resolved to `(display_path, abs_path)` pairs and
stably sorted by display path (klyp.py lines 430-436).  Stable sort under a
total preorder is exactly `List.insertionSort`. -/
def sortedDisplayPairs (files : List String) (base : String) : List (String × String) :=
  List.insertionSort pairLe (files.map fun p => (get_display_path p base, p))

def missingDisplays (fs : FS) (pairs : List (String × String)) : List String :=
  (pairs.filter fun t => !fs.isFile t.2).map Prod.fst

def presentPairs (fs : FS) (pairs : List (String × String)) : List (String × String) :=
  pairs.filter fun t => fs.isFile t.2

def mkFileBlock (dp content : String) : String :=
  dp ++ ":\n```\n" ++ content ++ "\n```\n\n"

structure LoopOut where
  parts : List String
  count : Nat
  warns : List Warning
deriving Repr, DecidableEq

/-- The per-file read loop (klyp.py lines 455-460): a successful read emits
a fenced block, an `IOError` emits a warning and skips the file. -/
def fileLoop (fs : FS) : List (String × String) → LoopOut
  | [] => ⟨[], 0, []⟩
  | t :: rest =>
    match fs.readFile t.2 with
    | some raw =>
      let r := fileLoop fs rest
      ⟨mkFileBlock t.1 (pyStrip raw) :: r.parts, r.count + 1, r.warns⟩
    | none =>
      let r := fileLoop fs rest
      ⟨r.parts, r.count, Warning.fileReadError t.1 :: r.warns⟩

def manifestParts (pairs : List (String × String)) : List String :=
  "Project Structure:\n```\n" :: (pairs.map fun t => t.1 ++ "\n") ++ ["```\n\n"]

/-- Separator guard before the code section (klyp.py line 451):
`output_parts and output_parts[-1] and not output_parts[-1].isspace()`. -/
def needsSep (parts : List String) : Bool :=
  match parts.getLast? with
  | some s => s ≠ "" && !pyIsSpaceStr s
  | none => false

/-- Step 2 of the assembler: manifest plus fenced blocks, executed only when
some tracked file survived the missing-file check. -/
def codeSection (fs : FS) (ctxParts : List String) (present : List (String × String))
    (filesNonempty : Bool) : LoopOut :=
  if present.isEmpty then ⟨[], 0, []⟩
  else
    let sep : List String := if needsSep ctxParts then ["\n\n"] else []
    let r := fileLoop fs present
    let ws := if r.count = 0 && filesNonempty then r.warns ++ [Warning.noFilesRead] else r.warns
    ⟨sep ++ manifestParts present ++ r.parts, r.count, ws⟩

/-- Step 3 of the assembler: the prompt file (klyp.py lines 464-481).  The
separator appended before a nonempty prompt is a single `"\n"` (the
`# Minimal separation` line), emitted unless the preceding part already
ends in a blank line. -/
def promptStep (fs : FS) (base : String) (partsBefore : List String)
    (pf : Option String) : SectionOut :=
  match pf with
  | none => ⟨[], "", []⟩
  | some pp =>
    if pp = "" then ⟨[], "", []⟩
    else if fs.isFile pp then
      match fs.readFile pp with
      | some raw =>
        let c := pyStrip raw
        if c ≠ "" then
          let sep : List String :=
            match partsBefore.getLast? with
            | some last =>
              if last ≠ "" && !pyIsSpaceStr last && !strEndsWith last "\n\n"
              then ["\n"] else []
            | none => []
          ⟨sep ++ [c], c, []⟩
        else ⟨[], c, []⟩
      | none => ⟨[], "", [.promptReadError (get_display_path pp base)]⟩
    else ⟨[], "", [.promptMissing (get_display_path pp base)]⟩

/-- Final join: `"".join(output_parts).strip()` plus the single trailing
newline (klyp.py lines 493-495). -/
def finalizeOut (name : String) (count : Nat) (parts : List String) :
    Except AssembleError AssembleOk :=
  let s := pyStrip (String.join parts)
  let s2 := if s = "" then s else s ++ "\n"
  .ok ⟨s2, count, s2.length, name, false, []⟩

/-- The empty-result dispatch (klyp.py lines 483-495): the two
"nothing to assemble" early returns, otherwise the final join.
`filesEmpty` is the truthiness of the stored `files` list. -/
def assembleTail (name : String) (count : Nat) (parts : List String)
    (ctxContent : String) (filesEmpty : Bool) (promptContent : String) :
    Except AssembleError AssembleOk :=
  if parts.all pyIsSpaceStr then
    if ctxContent = "" && filesEmpty && promptContent = "" then
      .ok ⟨"", 0, 0, name, true, []⟩
    else if !(parts.any fun p => pyStrip p ≠ "") then
      .ok ⟨"", 0, 0, name, true, []⟩
    else finalizeOut name count parts
  else finalizeOut name count parts

/-- Steps 2-4 of the assembler, after the context section has been
computed.  Fails hard with `missingTrackedFiles` (sorted display paths)
when any tracked file is not a regular file; otherwise produces the final
text, the count of files actually read, and the collected warnings. -/
def formatAfterContext (fs : FS) (base name : String) (sd : ScopeData)
    (ctxParts : List String) (ctxContent : String) : Except AssembleError AssembleOk :=
  let pairs := sortedDisplayPairs sd.files base
  let missing := missingDisplays fs pairs
  if missing.isEmpty then
    let code := codeSection fs ctxParts (presentPairs fs pairs) (!sd.files.isEmpty)
    let pre := ctxParts ++ code.parts
    let pr := promptStep fs base pre sd.prompt_file
    (assembleTail name code.count (pre ++ pr.parts) ctxContent sd.files.isEmpty pr.content).map
      (fun ok => { ok with warnings := code.warns ++ ok.warnings ++ pr.warns })
  else .error (.missingTrackedFiles name (List.insertionSort (· ≤ ·) missing))

/-- The assembler body for a resolved scope record. -/
def formatScope (fs : FS) (base name : String) (sd : ScopeData) :
    Except AssembleError AssembleOk :=
  let ctx := contextStep fs base sd.context_file
  (formatAfterContext fs base name sd ctx.parts ctx.content).map
    (fun ok => { ok with warnings := ctx.warns ++ ok.warnings })

/-- Python truthiness of the optional requested scope string. -/
def pyTruthy (o : Option String) : Bool :=
  match o with
  | none => false
  | some s => s ≠ ""

/-- Embedding of `_get_formatted_scope_content`: resolve the scope name
(requested, else active pointer), look up the record, and assemble. -/
def _get_formatted_scope_content (requested : Option String) (config : Config)
    (fs : FS) (base : String) : Except AssembleError AssembleOk :=
  let actual := if pyTruthy requested then requested else get_current_scope_name config
  match actual with
  | none => .error .noActiveScope
  | some name =>
    if name = "" then .error .noActiveScope
    else
      match get_scope_data config name with
      | none => .error (.scopeNotFound name)
      | some sd => formatScope fs base name sd

/-! ### Helper lemmas -/

theorem except_map_map {ε α β γ : Type} (x : Except ε α) (f : α → β) (g : β → γ) :
    (x.map f).map g = x.map (fun a => g (f a)) := by
  cases x <;> rfl

/-- Resolution lemma: a request naming a scope that exists goes straight to
the assembler body. -/
theorem assemble_requested {cfg : Config} {name : String} {sd : ScopeData}
    (h : get_scope_data cfg name = some sd) (fs : FS) (base : String) :
    _get_formatted_scope_content (some name) cfg fs base = formatScope fs base name sd := by
  have hne : name ≠ "" := by
    intro he
    rw [he] at h
    simp [get_scope_data] at h
  simp [_get_formatted_scope_content, pyTruthy, hne, h]

/-- The strict companion of `pairLe`. -/
def pairLt (a b : String × String) : Prop := a.1 < b.1

instance : IsAntisymm (String × String) pairLt :=
  ⟨fun _ _ h1 h2 => absurd h2 (lt_asymm h1)⟩

theorem sorted_pairLt_of_nodup {l : List (String × String)}
    (hs : l.Sorted pairLe) (hnd : (l.map Prod.fst).Nodup) : l.Sorted pairLt := by
  have h2 : l.Pairwise (fun a b : String × String => a.1 ≠ b.1) := List.pairwise_map.mp hnd
  exact (hs.and h2).imp (fun h => lt_of_le_of_ne h.1 h.2)

/-- A stable key-sort of pairwise-distinct keys does not depend on the input
order: any two permuted inputs sort to the same list. -/
theorem insertionSort_pairs_eq {l1 l2 : List (String × String)} (hp : l1.Perm l2)
    (hnd : (l1.map Prod.fst).Nodup) :
    List.insertionSort pairLe l1 = List.insertionSort pairLe l2 := by
  have hperm : (List.insertionSort pairLe l1).Perm (List.insertionSort pairLe l2) :=
    (List.perm_insertionSort pairLe l1).trans (hp.trans (List.perm_insertionSort pairLe l2).symm)
  have hnd1 : ((List.insertionSort pairLe l1).map Prod.fst).Nodup :=
    (((List.perm_insertionSort pairLe l1).map Prod.fst).symm).nodup hnd
  have hnd2 : ((List.insertionSort pairLe l2).map Prod.fst).Nodup :=
    (((List.perm_insertionSort pairLe l2).map Prod.fst).symm).nodup ((hp.map Prod.fst).nodup hnd)
  exact List.eq_of_perm_of_sorted hperm
    (sorted_pairLt_of_nodup (List.sorted_insertionSort pairLe l1) hnd1)
    (sorted_pairLt_of_nodup (List.sorted_insertionSort pairLe l2) hnd2)

theorem sortedDisplayPairs_perm_eq {files l2 : List String} {base : String}
    (hp : files.Perm l2)
    (hnd : (files.map fun p => get_display_path p base).Nodup) :
    sortedDisplayPairs files base = sortedDisplayPairs l2 base := by
  unfold sortedDisplayPairs
  refine insertionSort_pairs_eq (hp.map _) ?_
  simpa [List.map_map, Function.comp] using hnd

theorem fileLoop_parts (fs : FS) (l : List (String × String)) :
    (fileLoop fs l).parts =
      (l.filter fun t => (fs.readFile t.2).isSome).map
        (fun t => mkFileBlock t.1 (pyStrip ((fs.readFile t.2).getD ""))) := by
  induction l with
  | nil => rfl
  | cons t rest ih =>
    cases h : fs.readFile t.2 <;> simp [fileLoop, h, ih]

theorem fileLoop_count (fs : FS) (l : List (String × String)) :
    (fileLoop fs l).count = (l.filter fun t => (fs.readFile t.2).isSome).length := by
  induction l with
  | nil => rfl
  | cons t rest ih =>
    cases h : fs.readFile t.2 <;> simp [fileLoop, h, ih]

theorem fileLoop_warns (fs : FS) (l : List (String × String)) :
    (fileLoop fs l).warns =
      (l.filter fun t => (fs.readFile t.2).isNone).map
        (fun t => Warning.fileReadError t.1) := by
  induction l with
  | nil => rfl
  | cons t rest ih =>
    cases h : fs.readFile t.2 <;> simp [fileLoop, h, ih]

theorem mem_sortedDisplayPairs {files : List String} {base p : String} (h : p ∈ files) :
    (get_display_path p base, p) ∈ sortedDisplayPairs files base := by
  unfold sortedDisplayPairs
  exact (List.perm_insertionSort pairLe _).mem_iff.mpr
    (List.mem_map_of_mem _ h)

theorem snd_mem_of_mem_sortedDisplayPairs {files : List String} {base : String}
    {t : String × String} (h : t ∈ sortedDisplayPairs files base) : t.2 ∈ files := by
  unfold sortedDisplayPairs at h
  obtain ⟨q, hq, rfl⟩ := List.mem_map.mp ((List.perm_insertionSort pairLe _).mem_iff.mp h)
  exact hq

theorem mem_missingDisplays (fs : FS) (base : String) {files : List String} {p : String}
    (hmem : p ∈ files) (hnf : fs.isFile p = false) :
    get_display_path p base ∈ missingDisplays fs (sortedDisplayPairs files base) := by
  unfold missingDisplays
  exact List.mem_map_of_mem _ (List.mem_filter.mpr ⟨mem_sortedDisplayPairs hmem, by simp [hnf]⟩)

theorem missingDisplays_eq_nil (fs : FS) (base : String) {files : List String}
    (hall : ∀ p ∈ files, fs.isFile p = true) :
    missingDisplays fs (sortedDisplayPairs files base) = [] := by
  unfold missingDisplays
  have h : (sortedDisplayPairs files base).filter (fun t => !fs.isFile t.2) = [] := by
    rw [List.filter_eq_nil_iff]
    intro t ht
    simp [hall t.2 (snd_mem_of_mem_sortedDisplayPairs ht)]
  rw [h, List.map_nil]

theorem presentPairs_eq_self (fs : FS) (base : String) {files : List String}
    (hall : ∀ p ∈ files, fs.isFile p = true) :
    presentPairs fs (sortedDisplayPairs files base) = sortedDisplayPairs files base := by
  unfold presentPairs
  rw [List.filter_eq_self]
  intro t ht
  simp [hall t.2 (snd_mem_of_mem_sortedDisplayPairs ht)]

theorem pySortedDedup_sorted (l : List String) :
    List.Sorted (· ≤ ·) (pySortedDedup l) :=
  List.sorted_insertionSort _ _

theorem pySortedDedup_nodup (l : List String) : (pySortedDedup l).Nodup :=
  (List.perm_insertionSort (· ≤ ·) l.dedup).symm.nodup l.nodup_dedup

theorem pySortedDedup_eq_self {l : List String}
    (hs : List.Sorted (· ≤ ·) l) (hn : l.Nodup) : pySortedDedup l = l := by
  unfold pySortedDedup
  rw [List.dedup_eq_self.mpr hn]
  exact List.eq_of_perm_of_sorted (List.perm_insertionSort _ l)
    (List.sorted_insertionSort _ l) hs

theorem mem_pySortedDedup {l : List String} {p : String} :
    p ∈ pySortedDedup l ↔ p ∈ l := by
  unfold pySortedDedup
  rw [(List.perm_insertionSort (· ≤ ·) l.dedup).mem_iff, List.mem_dedup]

theorem find?_map_fst_preserving (g : String × ScopeData → String × ScopeData)
    (hg : ∀ p, (g p).1 = p.1) (l : List (String × ScopeData)) (n : String) :
    (l.map g).find? (fun p => p.1 = n) = (l.find? (fun p => p.1 = n)).map g := by
  induction l with
  | nil => rfl
  | cons p l ih => by_cases h : p.1 = n <;> simp [List.find?, hg, h, ih]

theorem find?_append_of_none {α : Type} {l1 l2 : List α} {p : α → Bool}
    (h : l1.find? p = none) : (l1 ++ l2).find? p = l2.find? p := by
  induction l1 with
  | nil => rfl
  | cons a t ih =>
    cases hp : p a with
    | true => simp [List.find?, hp] at h
    | false =>
      rw [List.find?] at h
      rw [hp] at h
      simp only [List.cons_append, List.find?, hp]
      exact ih h

theorem lookupScope_save (cfg : Config) (n : String) :
    lookupScope (save_config cfg) n =
      (lookupScope cfg n).map
        (fun sd => if strStartsWith n "_klyp_" then sd else normalizeScope sd) := by
  unfold lookupScope save_config
  rw [find?_map_fst_preserving saveScopeEntry
    (fun p => by by_cases h : strStartsWith p.1 "_klyp_" = true <;> simp [saveScopeEntry, h])]
  cases hf : cfg.scopes.find? (fun p => p.1 = n) with
  | none => rfl
  | some p =>
    have hp : p.1 = n := by simpa using List.find?_some hf
    by_cases h : strStartsWith n "_klyp_" = true <;> simp [saveScopeEntry, hp, h]

theorem assembleTail_isOk (name : String) (count : Nat) (parts : List String)
    (c : String) (fe : Bool) (pc : String) :
    ∃ a, assembleTail name count parts c fe pc = .ok a := by
  unfold assembleTail finalizeOut
  repeat' split
  all_goals exact ⟨_, rfl⟩

theorem perm_isEmpty_eq {α : Type} {l1 l2 : List α} (h : l1.Perm l2) :
    l1.isEmpty = l2.isEmpty := by
  have hl := h.length_eq
  cases l1 <;> cases l2 <;> simp_all

/-- Congruence for the assembler body: it consumes the scope record only
through its context slot, its prompt slot, the display-sorted file pairs
and the emptiness of the file list. -/
theorem formatScope_congr {fs : FS} {base name : String} {sd sd2 : ScopeData}
    (hctx : sd.context_file = sd2.context_file)
    (hpr : sd.prompt_file = sd2.prompt_file)
    (hpairs : sortedDisplayPairs sd.files base = sortedDisplayPairs sd2.files base)
    (hempty : sd.files.isEmpty = sd2.files.isEmpty) :
    formatScope fs base name sd = formatScope fs base name sd2 := by
  simp only [formatScope, formatAfterContext, hctx, hpr, hpairs, hempty]

/-- A dangling active pointer is surfaced by the assembler as a
scope-not-found failure, not as the no-active-scope failure. -/
theorem assemble_active_dangling {cfg : Config} {n : String}
    (hc : cfg.current_scope = some n) (hne : n ≠ "")
    (hg : get_scope_data cfg n = none) (fs : FS) (base : String) :
    _get_formatted_scope_content none cfg fs base = .error (.scopeNotFound n) := by
  simp [_get_formatted_scope_content, pyTruthy, get_current_scope_name, hc, hne, hg]

/-! ### Concrete instances used by the claim theorems -/

def fsC1 : FS :=
  { isFile := fun p => p = "/p/f.txt" || p = "/p/c.txt" || p = "/p/q.txt",
    readFile := fun p =>
      if p = "/p/f.txt" then some "X"
      else if p = "/p/c.txt" then some "C"
      else if p = "/p/q.txt" then some "P"
      else none }

def cfgC1 : Config :=
  ⟨some "work", none, [("work", ⟨["/p/f.txt"], some "/p/c.txt", some "/p/q.txt"⟩)]⟩

/-- C1, counterexample: at the natural concrete instance of the claim
(project root `/p`, context file trimming to `C`, single tracked file
`/p/f.txt` with trimmed content `X`, prompt trimming to `P`), the assembler
labels the file with its display path `./f.txt` — `get_display_path` always
prefixes in-project paths with `./` — so the output differs from the exact
text the claim demands (which uses the bare label `f.txt`). -/
theorem klyp_C1_counterexample :
    _get_formatted_scope_content (some "work") cfgC1 fsC1 "/p" =
      .ok ⟨"C\n\nProject Structure:\n```\n./f.txt\n```\n\n./f.txt:\n```\nX\n```\n\nP\n",
           1, 61, "work", false, []⟩
    ∧ ("C\n\nProject Structure:\n```\n./f.txt\n```\n\n./f.txt:\n```\nX\n```\n\nP\n" : String) ≠
      "C\n\nProject Structure:\n```\nf.txt\n```\n\nf.txt:\n```\nX\n```\n\nP\n" :=
  ⟨by rfl, by decide⟩

/-- C1, amended: with context `C`, one tracked file `/p/f.txt` containing
`X`, and prompt `P`, assembly returns exactly
`C\n\nProject Structure:\n\x60\x60\x60\n./f.txt\n\x60\x60\x60\n\n./f.txt:\n\x60\x60\x60\nX\n\x60\x60\x60\n\nP\n`
(one file read, 61 characters): the claimed shape with the display-path
labels carrying their `./` prefix. -/
theorem klyp_C1_amended :
    _get_formatted_scope_content (some "work") cfgC1 fsC1 "/p" =
      .ok ⟨"C\n\nProject Structure:\n```\n./f.txt\n```\n\n./f.txt:\n```\nX\n```\n\nP\n",
           1, 61, "work", false, []⟩ := by
  rfl

def fsC5 : FS :=
  { isFile := fun p => p = "/p/c.txt" || p = "/p/q.txt",
    readFile := fun p =>
      if p = "/p/c.txt" then some "C"
      else if p = "/p/q.txt" then some "P"
      else none }

def cfgC5 : Config :=
  ⟨some "work", none, [("work", ⟨[], some "/p/c.txt", some "/p/q.txt"⟩)]⟩

/-- C5, failing input: a scope with nonempty context `C`, nonempty prompt
`P` and no tracked files assembles to `C\nP\n` — the prompt separator is the
single `"\n"` appended at klyp.py line 476 — so the context and prompt
sections are joined by a bare line break, not by the blank line the claim
(and the spec) require, which would give `C\n\nP\n`. -/
theorem klyp_C5_eval :
    _get_formatted_scope_content (some "work") cfgC5 fsC5 "/p" =
      .ok ⟨"C\nP\n", 0, 4, "work", false, []⟩
    ∧ ("C\nP\n" : String) ≠ "C\n\nP\n" :=
  ⟨by rfl, by decide⟩

def cfgC6 : Config := ⟨some "ghost", none, [("main", ⟨[], none, none⟩)]⟩

/-- C6, counterexample: `get_current_scope_name` returns the stored
active-scope pointer even when it names no existing record, refuting the
claim that the pointer is returned only if it still resolves. -/
theorem klyp_C6_counterexample :
    get_current_scope_name cfgC6 = some "ghost" ∧ get_scope_data cfgC6 "ghost" = none :=
  ⟨rfl, by rfl⟩

/-- C6, amended: the raw pointer is returned unconditionally, and a dangling
pointer makes assembly-with-no-requested-scope fail with the scope-not-found
error (not with the distinct no-active-scope error); nothing mutates the
store, which the reading functions take as a pure value. -/
theorem klyp_C6_amended :
    ∀ (cfg : Config) (fs : FS) (base n : String),
      cfg.current_scope = some n → n ≠ "" → get_scope_data cfg n = none →
      get_current_scope_name cfg = some n ∧
        _get_formatted_scope_content none cfg fs base = .error (.scopeNotFound n) := by
  intro cfg fs base n hc hne hg
  exact ⟨by simp [get_current_scope_name, hc], assemble_active_dangling hc hne hg fs base⟩

def fsC6 : FS := ⟨fun _ => false, fun _ => none⟩

/-- C6, witness: the amended statement at the concrete dangling store. -/
theorem klyp_C6_witness :
    get_current_scope_name cfgC6 = some "ghost" ∧
      _get_formatted_scope_content none cfgC6 fsC6 "/p" = .error (.scopeNotFound "ghost") :=
  klyp_C6_amended cfgC6 fsC6 "/p" "ghost" rfl (by decide) (by rfl)

def cfgC7 : Config := ⟨some "beta", none, [("alpha", ⟨[], none, none⟩)]⟩

def cfgC7R : Config := ⟨some "beta", none, [("beta", ⟨[], none, none⟩)]⟩

/-- C7, counterexample: with the tolerated dangling pointer already equal to
the target name, renaming `alpha` to `beta` succeeds and leaves the pointer
naming `beta` although it did not previously name `alpha` — the biconditional
"active names B iff it previously named A" fails in this store. -/
theorem klyp_C7_counterexample :
    handle_scope_rename_cmd cfgC7 "alpha" "beta" = .renamed cfgC7R
    ∧ cfgC7R.current_scope = some "beta"
    ∧ cfgC7.current_scope ≠ some "alpha" :=
  ⟨by rfl, rfl, by decide⟩

def fsC4 : FS := ⟨fun _ => false, fun _ => none⟩

def cfgC4 : Config :=
  ⟨some "work", none, [("work", ⟨["/p/gone.txt"], some "/p/ctx.txt", none⟩)]⟩

/-- C4, counterexample: a scope whose context file is set but missing is not
always assembled successfully — when a tracked file is missing as well, the
whole assembly fails hard, refuting the unconditional "assemble does not
fail" part of the claim. -/
theorem klyp_C4_counterexample :
    _get_formatted_scope_content (some "work") cfgC4 fsC4 "/p" =
      .error (.missingTrackedFiles "work" ["./gone.txt"]) := by
  rfl

/-- C2, confirmed: whenever any tracked file of a resolvable scope is not a
regular file at assembly time, the assembler fails hard with the
missing-tracked-files error — no output text exists on that path — and the
error enumerates the display path of every missing tracked file. -/
theorem klyp_C2 :
    ∀ (cfg : Config) (fs : FS) (base name : String) (sd : ScopeData),
      get_scope_data cfg name = some sd →
      (∃ p ∈ sd.files, fs.isFile p = false) →
      ∃ missing,
        _get_formatted_scope_content (some name) cfg fs base =
          .error (.missingTrackedFiles name missing)
        ∧ ∀ q ∈ sd.files, fs.isFile q = false → get_display_path q base ∈ missing := by
  intro cfg fs base name sd h hex
  obtain ⟨p, hp, hnf⟩ := hex
  rw [assemble_requested h]
  have hmem := mem_missingDisplays fs base hp hnf
  have hne : missingDisplays fs (sortedDisplayPairs sd.files base) ≠ [] :=
    List.ne_nil_of_mem hmem
  refine ⟨List.insertionSort (· ≤ ·) (missingDisplays fs (sortedDisplayPairs sd.files base)),
    ?_, ?_⟩
  · simp only [formatScope, formatAfterContext]
    rw [if_neg (by simp [List.isEmpty_iff, hne])]
    rfl
  · intro q hq hqf
    exact (List.perm_insertionSort _ _).mem_iff.mpr (mem_missingDisplays fs base hq hqf)

def fsC2 : FS := ⟨fun p => p = "/p/ok.txt", fun p => if p = "/p/ok.txt" then some "ok" else none⟩

def cfgC2 : Config :=
  ⟨some "work", none, [("work", ⟨["/p/ok.txt", "/p/lost.txt"], none, none⟩)]⟩

/-- C2, witness: the theorem applied at a scope with one present and one
missing tracked file. -/
theorem klyp_C2_witness :
    ∃ missing,
      _get_formatted_scope_content (some "work") cfgC2 fsC2 "/p" =
        .error (.missingTrackedFiles "work" missing)
      ∧ ∀ q ∈ (⟨["/p/ok.txt", "/p/lost.txt"], none, none⟩ : ScopeData).files,
          fsC2.isFile q = false → get_display_path q "/p" ∈ missing :=
  klyp_C2 cfgC2 fsC2 "/p" "work" ⟨["/p/ok.txt", "/p/lost.txt"], none, none⟩ (by rfl)
    ⟨"/p/lost.txt", by decide, by decide⟩

/-- C3, confirmed: the code section is generated from `sortedDisplayPairs`
(both the manifest entries and the fenced blocks walk that one list), the
display-path keys of that list are sorted lexicographically, and for tracked
file sets with pairwise-distinct display paths the whole assembly result is
invariant under permuting the stored file list. -/
theorem klyp_C3 :
    ∀ (base : String) (files l2 : List String),
      (files.map fun p => get_display_path p base).Nodup →
      files.Perm l2 →
      List.Sorted (· ≤ ·) ((sortedDisplayPairs files base).map Prod.fst)
      ∧ sortedDisplayPairs files base = sortedDisplayPairs l2 base
      ∧ ∀ (fs : FS) (cfg cfg2 : Config) (name : String) (sd sd2 : ScopeData),
          get_scope_data cfg name = some sd → get_scope_data cfg2 name = some sd2 →
          sd.files = files → sd2.files = l2 →
          sd.context_file = sd2.context_file → sd.prompt_file = sd2.prompt_file →
          _get_formatted_scope_content (some name) cfg fs base =
            _get_formatted_scope_content (some name) cfg2 fs base := by
  intro base files l2 hnd hperm
  refine ⟨?_, sortedDisplayPairs_perm_eq hperm hnd, ?_⟩
  · unfold sortedDisplayPairs
    exact List.pairwise_map.mpr (List.sorted_insertionSort pairLe _)
  · intro fs cfg cfg2 name sd sd2 h1 h2 hf1 hf2 hctx hpr
    rw [assemble_requested h1, assemble_requested h2]
    apply formatScope_congr hctx hpr
    · rw [hf1, hf2]
      exact sortedDisplayPairs_perm_eq hperm hnd
    · rw [hf1, hf2]
      exact perm_isEmpty_eq hperm

def fsC3 : FS :=
  { isFile := fun p => p = "/p/a.txt" || p = "/p/b.txt",
    readFile := fun p =>
      if p = "/p/a.txt" then some "A"
      else if p = "/p/b.txt" then some "B"
      else none }

def cfgC3a : Config :=
  ⟨some "work", none, [("work", ⟨["/p/b.txt", "/p/a.txt"], none, none⟩)]⟩

def cfgC3b : Config :=
  ⟨some "work", none, [("work", ⟨["/p/a.txt", "/p/b.txt"], none, none⟩)]⟩

/-- C3, witness: the theorem applied to the file set stored as
`{b.txt, a.txt}` against its permutation `{a.txt, b.txt}`. -/
theorem klyp_C3_witness :
    List.Sorted (· ≤ ·) ((sortedDisplayPairs ["/p/b.txt", "/p/a.txt"] "/p").map Prod.fst)
    ∧ sortedDisplayPairs ["/p/b.txt", "/p/a.txt"] "/p" =
        sortedDisplayPairs ["/p/a.txt", "/p/b.txt"] "/p"
    ∧ _get_formatted_scope_content (some "work") cfgC3a fsC3 "/p" =
        _get_formatted_scope_content (some "work") cfgC3b fsC3 "/p" := by
  have h := klyp_C3 "/p" ["/p/b.txt", "/p/a.txt"] ["/p/a.txt", "/p/b.txt"]
    (by decide) (by decide)
  exact ⟨h.1, h.2.1,
    h.2.2 fsC3 cfgC3a cfgC3b "work" ⟨["/p/b.txt", "/p/a.txt"], none, none⟩
      ⟨["/p/a.txt", "/p/b.txt"], none, none⟩ (by rfl) (by rfl) rfl rfl rfl rfl⟩

/-- C9, confirmed: a scope with no tracked files whose context and prompt
slots are unset or read to whitespace-only text assembles to the distinct
no-op result — empty text, zero files read — rather than to an error. -/
theorem klyp_C9 :
    ∀ (cfg : Config) (fs : FS) (base name : String) (sd : ScopeData),
      get_scope_data cfg name = some sd →
      sd.files = [] →
      (sd.context_file = none ∨ ∃ cp raw, sd.context_file = some cp ∧ cp ≠ "" ∧
        fs.isFile cp = true ∧ fs.readFile cp = some raw ∧ pyStrip raw = "") →
      (sd.prompt_file = none ∨ ∃ pp raw, sd.prompt_file = some pp ∧ pp ≠ "" ∧
        fs.isFile pp = true ∧ fs.readFile pp = some raw ∧ pyStrip raw = "") →
      _get_formatted_scope_content (some name) cfg fs base =
        .ok ⟨"", 0, 0, name, true, []⟩ := by
  intro cfg fs base name sd h hf hctx hpr
  rw [assemble_requested h]
  have hc : contextStep fs base sd.context_file = ⟨[], "", []⟩ := by
    rcases hctx with hnone | ⟨cp, raw, hcp, hne, hif, hread, hstrip⟩
    · rw [hnone]; rfl
    · rw [hcp]; simp [contextStep, hne, hif, hread, hstrip]
  have hp : ∀ pb, promptStep fs base pb sd.prompt_file = ⟨[], "", []⟩ := by
    intro pb
    rcases hpr with hnone | ⟨pp, raw, hpp, hne, hif, hread, hstrip⟩
    · rw [hnone]; rfl
    · rw [hpp]; simp [promptStep, hne, hif, hread, hstrip]
  simp [formatScope, formatAfterContext, hc, hf, hp, sortedDisplayPairs,
    missingDisplays, presentPairs, codeSection, assembleTail, Except.map]

def fsC9 : FS := ⟨fun _ => false, fun _ => none⟩

def cfgC9 : Config := ⟨some "work", none, [("work", ⟨[], none, none⟩)]⟩

/-- C9, witness: the theorem applied to the fully empty scope. -/
theorem klyp_C9_witness :
    _get_formatted_scope_content (some "work") cfgC9 fsC9 "/p" =
      .ok ⟨"", 0, 0, "work", true, []⟩ :=
  klyp_C9 cfgC9 fsC9 "/p" "work" ⟨[], none, none⟩ (by rfl) rfl (Or.inl rfl) (Or.inl rfl)

def cfgC8bad : Config :=
  ⟨none, none, [("_klyp_evil", ⟨["/p/b.txt", "/p/a.txt", "/p/a.txt"], none, none⟩)]⟩

/-- C8, counterexample: the scope name `_klyp_evil` passes name validation
(only the two exact metadata keys and the command names are reserved), so
this store is reachable, yet the save guard skips every key carrying the
`_klyp_` prefix: the store is persisted unchanged, its file list neither
sorted nor deduplicated — refuting the universal claim. -/
theorem klyp_C8_counterexample :
    is_valid_scope_name "_klyp_evil" = true
    ∧ get_scope_data cfgC8bad "_klyp_evil" =
        some ⟨["/p/b.txt", "/p/a.txt", "/p/a.txt"], none, none⟩
    ∧ save_config cfgC8bad = cfgC8bad
    ∧ ¬ (["/p/b.txt", "/p/a.txt", "/p/a.txt"] : List String).Nodup
    ∧ ¬ List.Sorted (· ≤ ·) (["/p/b.txt", "/p/a.txt", "/p/a.txt"] : List String) := by
  refine ⟨by decide, by rfl, by rfl, by decide, ?_⟩
  intro h
  have hle := List.rel_of_sorted_cons h _ (List.mem_cons_self _ _)
  have hlt : ("/p/a.txt" : String) < "/p/b.txt" := by
    rw [String.lt_iff_toList_lt]
    decide
  exact absurd hle (not_le.mpr hlt)

/-- C8, amended: every scope record whose name does not carry the `_klyp_`
metadata prefix is persisted by a save with a sorted and duplicate-free
file list; adding an already-tracked resolved path a second time is the
identity; and after adding a path and normalizing for save, the persisted
file list counts that path exactly once. -/
theorem klyp_C8_amended :
    (∀ (cfg : Config) (e : String × ScopeData), e ∈ (save_config cfg).scopes →
      strStartsWith e.1 "_klyp_" = false →
      List.Sorted (· ≤ ·) e.2.files ∧ e.2.files.Nodup)
    ∧ (∀ (isF : String → Bool) (sd : ScopeData) (p : String),
        addFileToScope isF (addFileToScope isF sd p) p = addFileToScope isF sd p)
    ∧ (∀ (isF : String → Bool) (sd : ScopeData) (p : String), isF p = true →
        ((normalizeScope (addFileToScope isF sd p)).files).count p = 1) := by
  refine ⟨?_, ?_, ?_⟩
  · intro cfg e he hpre
    unfold save_config at he
    obtain ⟨q, _, rfl⟩ := List.mem_map.mp he
    by_cases hk : strStartsWith q.1 "_klyp_" = true
    · simp only [saveScopeEntry, if_pos hk] at hpre
      simp [hk] at hpre
    · simp only [saveScopeEntry, if_neg hk]
      exact ⟨pySortedDedup_sorted _, pySortedDedup_nodup _⟩
  · intro isF sd p
    by_cases hf : isF p = true
    · by_cases hm : p ∈ sd.files
      · simp [addFileToScope, hf, hm]
      · simp [addFileToScope, hf, hm]
    · simp [addFileToScope, Bool.of_not_eq_true hf]
  · intro isF sd p hf
    have hmem : p ∈ (addFileToScope isF sd p).files := by
      by_cases hm : p ∈ sd.files <;> simp [addFileToScope, hf, hm]
    exact List.count_eq_one_of_mem (pySortedDedup_nodup _) (mem_pySortedDedup.mpr hmem)

def cfgC8 : Config :=
  ⟨none, none, [("work", ⟨["/p/a.txt", "/p/a.txt"], none, none⟩)]⟩

/-- C8, witness: the amended theorem applied to a store holding a file list
with a duplicate entry under an ordinary scope name, and to a double add of
the same resolved path. -/
theorem klyp_C8_witness :
    (List.Sorted (· ≤ ·) (["/p/a.txt"] : List String)
      ∧ (["/p/a.txt"] : List String).Nodup)
    ∧ addFileToScope (fun _ => true)
        (addFileToScope (fun _ => true) ⟨[], none, none⟩ "/p/a.txt") "/p/a.txt" =
        addFileToScope (fun _ => true) ⟨[], none, none⟩ "/p/a.txt"
    ∧ ((normalizeScope (addFileToScope (fun _ => true) ⟨[], none, none⟩ "/p/a.txt")).files).count
        "/p/a.txt" = 1 :=
  ⟨klyp_C8_amended.1 cfgC8 ("work", ⟨["/p/a.txt"], none, none⟩)
    (by
      have h : (save_config cfgC8).scopes =
          [("work", ⟨["/p/a.txt"], none, none⟩)] := by rfl
      rw [h]
      exact List.mem_singleton.mpr rfl)
    (by rfl),
   klyp_C8_amended.2.1 (fun _ => true) ⟨[], none, none⟩ "/p/a.txt",
   klyp_C8_amended.2.2 (fun _ => true) ⟨[], none, none⟩ "/p/a.txt" rfl⟩

theorem except_map_congr {ε α β : Type} {x : Except ε α} {f g : α → β}
    (h : ∀ a, f a = g a) : x.map f = x.map g := by
  cases x <;> simp [Except.map, h]

theorem except_map_isOk {ε α β : Type} {x : Except ε α} (hx : ∃ a, x = .ok a)
    (g : α → β) : ∃ b, x.map g = .ok b := by
  obtain ⟨a, ha⟩ := hx
  exact ⟨g a, by rw [ha]; rfl⟩

theorem formatAfterContext_congr {fs : FS} {base name : String} (sd sd2 : ScopeData)
    {cp : List String} {cc : String}
    (hpr : sd.prompt_file = sd2.prompt_file)
    (hpairs : sortedDisplayPairs sd.files base = sortedDisplayPairs sd2.files base)
    (hempty : sd.files.isEmpty = sd2.files.isEmpty) :
    formatAfterContext fs base name sd cp cc = formatAfterContext fs base name sd2 cp cc := by
  simp only [formatAfterContext, hpr, hpairs, hempty]

theorem formatAfterContext_isOk {fs : FS} {base name : String} (sd : ScopeData)
    (hall : ∀ p ∈ sd.files, fs.isFile p = true) (cp : List String) (cc : String) :
    ∃ a, formatAfterContext fs base name sd cp cc = .ok a := by
  have hmiss := missingDisplays_eq_nil fs base hall
  simp only [formatAfterContext, hmiss, List.isEmpty_nil, if_true]
  exact except_map_isOk (assembleTail_isOk _ _ _ _ _ _) _

/-- A set-but-missing context file assembles exactly like the same scope
with no context slot, except that the context-missing warning is emitted
first. -/
theorem formatScope_context_missing (fs : FS) (base name : String) {sd : ScopeData}
    {cp : String} (hcp : sd.context_file = some cp) (hne : cp ≠ "")
    (hnf : fs.isFile cp = false) :
    formatScope fs base name sd =
      (formatScope fs base name { sd with context_file := none }).map
        (fun ok => { ok with
          warnings := Warning.contextMissing (get_display_path cp base) :: ok.warnings }) := by
  have hctxstep : contextStep fs base sd.context_file =
      ⟨[], "", [Warning.contextMissing (get_display_path cp base)]⟩ := by
    rw [hcp]
    simp [contextStep, hne, hnf]
  have hctxnone : contextStep fs base ({ sd with context_file := none } : ScopeData).context_file =
      ⟨[], "", []⟩ := rfl
  simp only [formatScope, hctxstep, hctxnone]
  rw [formatAfterContext_congr { sd with context_file := none } sd rfl rfl rfl]
  rw [except_map_map]
  exact except_map_congr (fun a => rfl)

/-- A set-but-missing prompt file assembles exactly like the same scope with
no prompt slot, except that the prompt-missing warning is emitted last. -/
theorem formatScope_prompt_missing (fs : FS) (base name : String) {sd : ScopeData}
    {pp : String} (hpp : sd.prompt_file = some pp) (hne : pp ≠ "")
    (hnf : fs.isFile pp = false) :
    formatScope fs base name sd =
      (formatScope fs base name { sd with prompt_file := none }).map
        (fun ok => { ok with
          warnings := ok.warnings ++ [Warning.promptMissing (get_display_path pp base)] }) := by
  have hpstep : ∀ pb, promptStep fs base pb sd.prompt_file =
      ⟨[], "", [Warning.promptMissing (get_display_path pp base)]⟩ := by
    intro pb
    rw [hpp]
    simp [promptStep, hne, hnf]
  have hpnone : ∀ pb, promptStep fs base pb ({ sd with prompt_file := none } : ScopeData).prompt_file =
      ⟨[], "", []⟩ := fun _ => rfl
  simp only [formatScope, formatAfterContext, hpstep, hpnone]
  cases hm : (missingDisplays fs (sortedDisplayPairs sd.files base)).isEmpty with
  | false => simp [hm, Except.map]
  | true =>
    simp only [hm, if_true]
    rw [except_map_map, except_map_map, except_map_map]
    apply except_map_congr
    intro a
    simp [List.append_assoc]

/-- C4, amended: a set-but-missing context (respectively prompt) file is
non-fatal by itself — provided every tracked file exists: the assembler
emits the corresponding missing-file warning, omits that section (the result
equals the assembly of the same scope with the slot cleared, warning aside),
and the command completes successfully. -/
theorem klyp_C4_amended :
    ∀ (cfg : Config) (fs : FS) (base name : String) (sd : ScopeData),
      get_scope_data cfg name = some sd →
      (∀ cp, sd.context_file = some cp → cp ≠ "" → fs.isFile cp = false →
        _get_formatted_scope_content (some name) cfg fs base =
          (formatScope fs base name { sd with context_file := none }).map
            (fun ok => { ok with
              warnings := Warning.contextMissing (get_display_path cp base) :: ok.warnings })
        ∧ ((∀ p ∈ sd.files, fs.isFile p = true) →
            ∃ ok, _get_formatted_scope_content (some name) cfg fs base = .ok ok ∧
              Warning.contextMissing (get_display_path cp base) ∈ ok.warnings))
      ∧ (∀ pp, sd.prompt_file = some pp → pp ≠ "" → fs.isFile pp = false →
        _get_formatted_scope_content (some name) cfg fs base =
          (formatScope fs base name { sd with prompt_file := none }).map
            (fun ok => { ok with
              warnings := ok.warnings ++ [Warning.promptMissing (get_display_path pp base)] })
        ∧ ((∀ p ∈ sd.files, fs.isFile p = true) →
            ∃ ok, _get_formatted_scope_content (some name) cfg fs base = .ok ok ∧
              Warning.promptMissing (get_display_path pp base) ∈ ok.warnings)) := by
  intro cfg fs base name sd h
  constructor
  · intro cp hcp hne hnf
    have heq := formatScope_context_missing fs base name hcp hne hnf
    refine ⟨by rw [assemble_requested h]; exact heq, ?_⟩
    intro hall
    rw [assemble_requested h, heq]
    have hok : ∃ a, formatScope fs base name { sd with context_file := none } = .ok a := by
      simp only [formatScope]
      exact except_map_isOk
        (formatAfterContext_isOk { sd with context_file := none } hall _ _) _
    obtain ⟨a, ha⟩ := hok
    rw [ha]
    exact ⟨_, rfl, by simp⟩
  · intro pp hpp hne hnf
    have heq := formatScope_prompt_missing fs base name hpp hne hnf
    refine ⟨by rw [assemble_requested h]; exact heq, ?_⟩
    intro hall
    rw [assemble_requested h, heq]
    have hok : ∃ a, formatScope fs base name { sd with prompt_file := none } = .ok a := by
      simp only [formatScope]
      exact except_map_isOk
        (formatAfterContext_isOk { sd with prompt_file := none } hall _ _) _
    obtain ⟨a, ha⟩ := hok
    rw [ha]
    exact ⟨_, rfl, by simp⟩

def fsC4w : FS :=
  ⟨fun p => p = "/p/ok.txt", fun p => if p = "/p/ok.txt" then some "ok" else none⟩

def cfgC4a : Config :=
  ⟨some "work", none, [("work", ⟨["/p/ok.txt"], some "/p/ctx.txt", none⟩)]⟩

def cfgC4b : Config :=
  ⟨some "work", none, [("work", ⟨["/p/ok.txt"], none, some "/p/pr.txt"⟩)]⟩

/-- C4, witness: the amended statement at a scope with one existing tracked
file and a missing context file, and at one with a missing prompt file. -/
theorem klyp_C4_witness :
    (∃ ok, _get_formatted_scope_content (some "work") cfgC4a fsC4w "/p" = .ok ok ∧
      Warning.contextMissing (get_display_path "/p/ctx.txt" "/p") ∈ ok.warnings)
    ∧ (∃ ok, _get_formatted_scope_content (some "work") cfgC4b fsC4w "/p" = .ok ok ∧
      Warning.promptMissing (get_display_path "/p/pr.txt" "/p") ∈ ok.warnings) :=
  ⟨((klyp_C4_amended cfgC4a fsC4w "/p" "work" ⟨["/p/ok.txt"], some "/p/ctx.txt", none⟩
      (by rfl)).1 "/p/ctx.txt" rfl (by decide) (by rfl)).2 (by decide),
   ((klyp_C4_amended cfgC4b fsC4w "/p" "work" ⟨["/p/ok.txt"], none, some "/p/pr.txt"⟩
      (by rfl)).2 "/p/pr.txt" rfl (by decide) (by rfl)).2 (by decide)⟩

theorem valid_ne_empty {n : String} (h : is_valid_scope_name n = true) : n ≠ "" := by
  intro he
  rw [he] at h
  simp [is_valid_scope_name] at h

theorem get_scope_data_none_of_invalid {cfg : Config} {n : String}
    (h : is_valid_scope_name n = false) : get_scope_data cfg n = none := by
  unfold get_scope_data
  by_cases he : n = ""
  · simp [he]
  · simp [he, h]

theorem get_scope_data_none_lookup {cfg : Config} {n : String}
    (hv : is_valid_scope_name n = true) (h : get_scope_data cfg n = none) :
    lookupScope cfg n = none := by
  have hne := valid_ne_empty hv
  simpa [get_scope_data, hne, hv] using h

theorem lookupScope_none_find? {cfg : Config} {n : String} (h : lookupScope cfg n = none) :
    cfg.scopes.find? (fun p => p.1 = n) = none := by
  unfold lookupScope at h
  exact Option.map_eq_none'.mp h

/-- C7, amended: renaming an existing scope `A` to a fresh valid name `B`
carries the record over exactly (for a store-normalized record) and moves
the active pointer to `B` exactly when it named `A` — provided the prior
pointer was not already a dangling reference spelled `B`; the rename is
rejected, with no produced store, when `B` is invalid or already names a
scope. -/
theorem klyp_C7_amended :
    ∀ (cfg : Config) (A B : String) (sd : ScopeData),
      get_scope_data cfg A = some sd →
      ((is_valid_scope_name B = false → handle_scope_rename_cmd cfg A B = .errInvalidNew)
      ∧ ((get_scope_data cfg B).isSome = true → handle_scope_rename_cmd cfg A B = .errNewExists)
      ∧ (is_valid_scope_name B = true → get_scope_data cfg B = none →
          List.Sorted (· ≤ ·) sd.files → sd.files.Nodup →
          (cfg.current_scope = some A ∨ cfg.current_scope ≠ some B) →
          ∃ cfg2, handle_scope_rename_cmd cfg A B = .renamed cfg2 ∧
            get_scope_data cfg2 B = some sd ∧
            (cfg2.current_scope = some B ↔ cfg.current_scope = some A))) := by
  intro cfg A B sd hA
  refine ⟨?_, ?_, ?_⟩
  · intro hv
    simp [handle_scope_rename_cmd, hA, hv]
  · intro hsome
    have hv : is_valid_scope_name B = true := by
      by_contra hv'
      rw [get_scope_data_none_of_invalid (Bool.not_eq_true _ ▸ hv' : is_valid_scope_name B = false)]
        at hsome
      simp at hsome
    simp [handle_scope_rename_cmd, hA, hv, hsome]
  · intro hv hB hsorted hnodup hptr
    have hAB : A ≠ B := by
      intro he
      rw [he] at hA
      rw [hA] at hB
      exact Option.noConfusion hB
    have hfind : cfg.scopes.find? (fun p => p.1 = B) = none :=
      lookupScope_none_find? (get_scope_data_none_lookup hv hB)
    refine ⟨save_config { cfg with
        scopes := (cfg.scopes.filter fun p => p.1 ≠ A) ++ [(B, sd)],
        current_scope := if cfg.current_scope = some A then some B else cfg.current_scope },
      by simp [handle_scope_rename_cmd, hA, hv, hB, hAB], ?_, ?_⟩
    · have hBne := valid_ne_empty hv
      have hfiltered : ((cfg.scopes.filter fun p => p.1 ≠ A).find? (fun p => p.1 = B)) = none := by
        rw [List.find?_eq_none]
        intro x hx
        exact List.find?_eq_none.mp hfind x (List.mem_of_mem_filter hx)
      have hlook :
          lookupScope { cfg with
            scopes := (cfg.scopes.filter fun p => p.1 ≠ A) ++ [(B, sd)],
            current_scope :=
              if cfg.current_scope = some A then some B else cfg.current_scope } B = some sd := by
        unfold lookupScope
        rw [find?_append_of_none hfiltered]
        simp [List.find?]
      simp only [get_scope_data, hBne, hv, if_neg, Bool.not_true, if_false]
      rw [lookupScope_save, hlook]
      by_cases hk : strStartsWith B "_klyp_" = true
      · simp [hk]
      · simp [hk, normalizeScope, pySortedDedup_eq_self hsorted hnodup]
    · show (if cfg.current_scope = some A then some B else cfg.current_scope) = some B ↔
        cfg.current_scope = some A
      constructor
      · intro hcc
        by_cases hc : cfg.current_scope = some A
        · exact hc
        · rw [if_neg hc] at hcc
          rcases hptr with hp | hp
          · exact absurd hp hc
          · exact absurd hcc hp
      · intro hc
        simp [hc]

def cfgC7w : Config := ⟨some "alpha", none, [("alpha", ⟨[], none, none⟩)]⟩

/-- C7, witness: the amended statement at a one-scope store whose pointer
names the renamed scope, plus the two rejection branches. -/
theorem klyp_C7_witness :
    handle_scope_rename_cmd cfgC7w "alpha" "add" = .errInvalidNew
    ∧ handle_scope_rename_cmd cfgC7w "alpha" "alpha" = .errNewExists
    ∧ ∃ cfg2, handle_scope_rename_cmd cfgC7w "alpha" "beta" = .renamed cfg2 ∧
        get_scope_data cfg2 "beta" = some ⟨[], none, none⟩ ∧
        (cfg2.current_scope = some "beta" ↔ cfgC7w.current_scope = some "alpha") :=
  ⟨(klyp_C7_amended cfgC7w "alpha" "add" ⟨[], none, none⟩ (by rfl)).1 (by decide),
   (klyp_C7_amended cfgC7w "alpha" "alpha" ⟨[], none, none⟩ (by rfl)).2.1 (by rfl),
   (klyp_C7_amended cfgC7w "alpha" "beta" ⟨[], none, none⟩ (by rfl)).2.2 (by decide) (by rfl)
     (by decide) (by decide) (Or.inl rfl)⟩

theorem codeSection_eq {fs : FS} {ctxParts : List String} {present : List (String × String)}
    (hne : present ≠ []) (fnE : Bool) :
    codeSection fs ctxParts present fnE =
      ⟨(if needsSep ctxParts then ["\n\n"] else []) ++ manifestParts present ++
          (fileLoop fs present).parts,
        (fileLoop fs present).count,
        if (fileLoop fs present).count = 0 && fnE then
          (fileLoop fs present).warns ++ [Warning.noFilesRead]
        else (fileLoop fs present).warns⟩ := by
  unfold codeSection
  rw [if_neg (by simp [List.isEmpty_iff, hne])]

theorem parts_all_space_false {parts : List String}
    (hmem : ("Project Structure:\n```\n" : String) ∈ parts) :
    parts.all pyIsSpaceStr = false := by
  cases hall : parts.all pyIsSpaceStr with
  | false => rfl
  | true =>
    exfalso
    have hx := List.all_eq_true.mp hall _ hmem
    rw [show pyIsSpaceStr "Project Structure:\n```\n" = false from by decide] at hx
    exact Bool.noConfusion hx

theorem assembleTail_eq_finalize {name : String} {count : Nat} {parts : List String}
    {c : String} {fe : Bool} {pc : String} (hall : parts.all pyIsSpaceStr = false) :
    assembleTail name count parts c fe pc = finalizeOut name count parts := by
  unfold assembleTail
  simp [hall]

/-- C10, confirmed: when every tracked file passes the missing-file check
but one fails to read, assembly still succeeds (no abort, not the no-op
result): the fenced blocks are exactly those of the readable files in
sorted order, the manifest still lists the unreadable file, the returned
file count is the number of successfully read files, and the skip warning
is emitted. -/
theorem klyp_C10 :
    ∀ (cfg : Config) (fs : FS) (base name : String) (sd : ScopeData) (f : String),
      get_scope_data cfg name = some sd →
      (∀ p ∈ sd.files, fs.isFile p = true) →
      f ∈ sd.files →
      fs.readFile f = none →
      (fileLoop fs (sortedDisplayPairs sd.files base)).parts =
        ((sortedDisplayPairs sd.files base).filter fun t => (fs.readFile t.2).isSome).map
          (fun t => mkFileBlock t.1 (pyStrip ((fs.readFile t.2).getD "")))
      ∧ get_display_path f base ∈ (sortedDisplayPairs sd.files base).map Prod.fst
      ∧ ∃ ok, _get_formatted_scope_content (some name) cfg fs base = .ok ok ∧
          ok.filesRead =
            ((sortedDisplayPairs sd.files base).filter fun t => (fs.readFile t.2).isSome).length
          ∧ ok.noop = false
          ∧ Warning.fileReadError (get_display_path f base) ∈ ok.warnings := by
  intro cfg fs base name sd f h hall hf hread
  refine ⟨fileLoop_parts fs _, List.mem_map_of_mem Prod.fst (mem_sortedDisplayPairs hf), ?_⟩
  rw [assemble_requested h]
  have hmiss := missingDisplays_eq_nil fs base hall
  have hpres := presentPairs_eq_self fs base hall
  have hne : sortedDisplayPairs sd.files base ≠ [] :=
    List.ne_nil_of_mem (mem_sortedDisplayPairs hf)
  have hw : Warning.fileReadError (get_display_path f base) ∈
      (fileLoop fs (sortedDisplayPairs sd.files base)).warns := by
    rw [fileLoop_warns]
    exact List.mem_map.mpr ⟨(get_display_path f base, f),
      List.mem_filter.mpr ⟨mem_sortedDisplayPairs hf, by simp [hread]⟩, rfl⟩
  simp only [formatScope, formatAfterContext, hmiss, List.isEmpty_nil, if_true, hpres,
    codeSection_eq hne]
  rw [assembleTail_eq_finalize (parts_all_space_false (by simp [manifestParts]))]
  simp only [finalizeOut, Except.map]
  refine ⟨_, rfl, ?_, rfl, ?_⟩
  · exact fileLoop_count fs _
  · split <;> simp only [List.mem_append, List.mem_cons] <;>
      (refine Or.inr (Or.inl ?_) ; split <;> simp [hw])

def fsC10 : FS :=
  ⟨fun p => p = "/p/good.txt" || p = "/p/bad.txt",
   fun p => if p = "/p/good.txt" then some "G" else none⟩

def cfgC10 : Config :=
  ⟨some "work", none, [("work", ⟨["/p/good.txt", "/p/bad.txt"], none, none⟩)]⟩

/-- C10, witness: the theorem applied to a scope with one readable and one
unreadable tracked file. -/
theorem klyp_C10_witness :
    (fileLoop fsC10 (sortedDisplayPairs ["/p/good.txt", "/p/bad.txt"] "/p")).parts =
      ((sortedDisplayPairs ["/p/good.txt", "/p/bad.txt"] "/p").filter
          fun t => (fsC10.readFile t.2).isSome).map
        (fun t => mkFileBlock t.1 (pyStrip ((fsC10.readFile t.2).getD "")))
    ∧ get_display_path "/p/bad.txt" "/p" ∈
        (sortedDisplayPairs ["/p/good.txt", "/p/bad.txt"] "/p").map Prod.fst
    ∧ ∃ ok, _get_formatted_scope_content (some "work") cfgC10 fsC10 "/p" = .ok ok ∧
        ok.filesRead = ((sortedDisplayPairs ["/p/good.txt", "/p/bad.txt"] "/p").filter
            fun t => (fsC10.readFile t.2).isSome).length
        ∧ ok.noop = false
        ∧ Warning.fileReadError (get_display_path "/p/bad.txt" "/p") ∈ ok.warnings :=
  klyp_C10 cfgC10 fsC10 "/p" "work" ⟨["/p/good.txt", "/p/bad.txt"], none, none⟩ "/p/bad.txt"
    (by rfl) (by decide) (by decide) (by rfl)
